import Mathlib

/-!
Verification of the dnd-card-crafter image-cache, generation-coordination,
accept/reject and print-pagination subsystems, shallowly embedded from the
TypeScript source (`src/lib/monster-images.ts`, `src/lib/monster-images-api.ts`,
`src/hooks/use-monster-image.ts`, `CardPreviewDialog`, `PrintPreview`).

Strings are modelled as `List Char`; JavaScript `Record<string,string>`
objects are modelled as functions `Str → Option Str`; JavaScript truthiness
of a string value is `v ≠ ""`.
-/

namespace CardCrafter

/-- Model of a JavaScript string: a list of characters. -/
abbrev Str := List Char

/-- The character class matched by `\s` in a JavaScript regular expression
(ASCII whitespace plus the Unicode space separators, NBSP, line/paragraph
separators, narrow NBSP, medium mathematical space, ideographic space and
BOM). Also the set trimmed by `String.prototype.trim`. -/
def jsWs (c : Char) : Bool :=
  let n := c.toNat
  (9 ≤ n && n ≤ 13) || n = 32 || n = 160 || n = 0x1680 ||
  (0x2000 ≤ n && n ≤ 0x200a) || n = 0x2028 || n = 0x2029 ||
  n = 0x202f || n = 0x205f || n = 0x3000 || n = 0xfeff

/-- The character class `[a-z0-9\s]`: exactly the characters kept by the
`replace(/[^a-z0-9\s]/g, '')` step of `normalizeMonsterName`. -/
def keepChar (c : Char) : Bool :=
  let n := c.toNat
  (97 ≤ n && n ≤ 122) || (48 ≤ n && n ≤ 57) || jsWs c

/-- Model of `replace(/\s+/g, ' ')`: every maximal run of whitespace
characters is replaced by a single space. -/
def collapseWs : List Char → List Char
  | [] => []
  | [c] => if jsWs c then [' '] else [c]
  | a :: b :: t =>
    if jsWs a then
      if jsWs b then collapseWs (b :: t)
      else ' ' :: collapseWs (b :: t)
    else a :: collapseWs (b :: t)

/-- Model of `String.prototype.trim`: drop whitespace from both ends. -/
def trimWs (l : List Char) : List Char :=
  ((l.dropWhile jsWs).reverse.dropWhile jsWs).reverse

/-- `normalizeMonsterName` from `src/lib/monster-images.ts`: lower-case,
strip characters outside `[a-z0-9\s]`, collapse whitespace runs to single
spaces, trim. -/
def normalizeMonsterName (name : Str) : Str :=
  trimWs (collapseWs ((name.map Char.toLower).filter keepChar))

/-- Model of `String.prototype.split(' ')`: split at every single space
character, keeping empty fields. -/
def splitSp : List Char → List Str
  | [] => [[]]
  | c :: t =>
    match splitSp t with
    | [] => [[]]
    | w :: ws => if c = ' ' then [] :: w :: ws else (c :: w) :: ws

/-- Model of `Array.prototype.join(' ')`. -/
def joinSp (ws : List Str) : Str :=
  List.intercalate [' '] ws

/-- Model of `[...new Set(xs)]`: deduplicate keeping the first occurrence
of each element, in order. -/
def dedupFirst : List Str → List Str :=
  go []
where
  /-- Recursive worker carrying the set of already-seen variations. -/
  go : List Str → List Str → List Str
    | _, [] => []
    | seen, x :: xs => if x ∈ seen then go seen xs else x :: go (x :: seen) xs

/-- The eleven dragon colours accepted by the `(red|blue|...|shadow)`
capture group of the dragon-pattern regexes. -/
def dragonColors : List Str :=
  ["red", "blue", "green", "black", "white", "brass", "bronze", "copper",
   "silver", "gold", "shadow"].map String.toList

/-- Consume one-or-more whitespace characters (the regex `\s+`), returning
the remainder, or `none` when the input does not start with whitespace. -/
def wsPlus (l : List Char) : Option (List Char) :=
  match l with
  | [] => none
  | c :: t => if jsWs c then some (t.dropWhile jsWs) else none

/-- Try to match `<word>\s+(<color>)\s+dragon` at the start of `l`,
returning the captured colour. -/
def matchColorDragonAt (word : Str) (l : Str) : Option Str :=
  if word.isPrefixOf l then
    match wsPlus (l.drop word.length) with
    | none => none
    | some rest =>
      dragonColors.find? (fun col =>
        col.isPrefixOf rest &&
          (match wsPlus (rest.drop col.length) with
           | none => false
           | some r2 => ("dragon".toList).isPrefixOf r2))
  else none

/-- Model of `normalized.match(/<word>\s+(red|...|shadow)\s+dragon/)`:
search left to right for the first position where the pattern matches,
returning the captured colour. -/
def dragonSearch (word : Str) : Str → Option Str
  | [] => none
  | c :: t =>
    match matchColorDragonAt word (c :: t) with
    | some col => some col
    | none => dragonSearch word t

/-- `findImageVariations` from `src/lib/monster-images.ts`: the ordered,
deduplicated list of lookup keys tried for a monster name. -/
def findImageVariations (monsterName : Str) : List Str :=
  let normalized := normalizeMonsterName monsterName
  let v1 : List Str := [normalized]
  let v2 := if ("the ".toList).isPrefixOf normalized
    then v1 ++ [normalized.drop 4] else v1
  let v3 :=
    if normalized.getLast? = some 's' && decide (normalized.length > 3)
    then v2 ++ [normalized.dropLast]
    else if !(normalized.getLast? = some 's')
    then v2 ++ [normalized ++ ['s']]
    else v2
  let words := splitSp normalized
  let v4 := if words.length > 1
    then v3 ++ [(words.getLast?).getD [], joinSp (words.drop 1)]
    else v3
  let v5 := v4 ++
    (match dragonSearch ("young".toList) normalized with
     | some col => [col ++ " dragon".toList]
     | none => []) ++
    (match dragonSearch ("ancient".toList) normalized with
     | some col => [col ++ " dragon".toList]
     | none => []) ++
    (match dragonSearch ("adult".toList) normalized with
     | some col => [col ++ " dragon".toList]
     | none => [])
  dedupFirst v5

/-- Model of a JavaScript `Record<string, string>`: a partial map. -/
abbrev RecordMap := Str → Option Str

/-- Model of the object spread `\x7b ...a, ...b \x7d`: keys of `b` win. -/
def spreadMap (a b : RecordMap) : RecordMap :=
  fun k => match b k with
    | some v => some v
    | none => a k

/-- Point update of a record map (JS `m[k] = v`). -/
def setKey (m : RecordMap) (k : Str) (v : Str) : RecordMap :=
  fun k2 => if k2 = k then some v else m k2

/-- State of the `monster-images.ts` module: the static JSON import
(`monsterImageMapStatic`, fixed for the session), the mutable
`runtimeImageCache`, and the `cacheInitialized` flag. -/
structure CacheState where
  statMap : RecordMap
  runtime : RecordMap
  initialized : Bool

/-- `updateImageCache(newImageMap?)`: with an argument the runtime cache is
replaced by a copy of the argument; without, the static import is merged
underneath the existing runtime cache (runtime entries win); either way
`cacheInitialized` becomes true. -/
def updateImageCache (newImageMap : Option RecordMap) (s : CacheState) : CacheState :=
  match newImageMap with
  | some m => { s with runtime := m, initialized := true }
  | none => { s with runtime := spreadMap s.statMap s.runtime, initialized := true }

/-- `addImageToCache(monsterName, imageUrl)`: store under the normalized
name. -/
def addImageToCache (monsterName : Str) (imageUrl : Str) (s : CacheState) : CacheState :=
  { s with runtime := setKey s.runtime (normalizeMonsterName monsterName) imageUrl }

/-- JS truthy read `runtimeImageCache[variation]` used as a condition:
present and non-empty. -/
def truthyGet (m : RecordMap) (k : Str) : Option Str :=
  match m k with
  | some v => if v = [] then none else some v
  | none => none

/-- The lookup loop of `getMonsterImageUrl`: first truthy hit among the
variations, in order. -/
def firstTruthy (m : RecordMap) : List Str → Option Str
  | [] => none
  | v :: t =>
    match truthyGet m v with
    | some u => some u
    | none => firstTruthy m t

/-- `getMonsterImageUrl(monsterName)` from `src/lib/monster-images.ts`,
with its lazy-initialization side effect threaded explicitly: returns the
result together with the (possibly initialized) module state. -/
def getMonsterImageUrlS (monsterName : Str) (s : CacheState) : Option Str × CacheState :=
  if monsterName = [] then (none, s)
  else
    let s1 := if s.initialized then s else updateImageCache none s
    (firstTruthy s1.runtime (findImageVariations monsterName), s1)

/-- `hasMonsterImage(monsterName)`: whether `getMonsterImageUrl` is
non-null. -/
def hasMonsterImage (monsterName : Str) (s : CacheState) : Bool :=
  (getMonsterImageUrlS monsterName s).1.isSome

/-!  The generation coordinator of `src/hooks/use-monster-image.ts`. -/

/-- One entry of the module-level `generationState` map: the subscriber
set (in insertion order), the `isGenerating` flag and the `completed`
flag.  Subscribers are identified by opaque ids. -/
structure GenRecord where
  subscribers : List Nat
  isGenerating : Bool
  completed : Bool
deriving DecidableEq

/-- Global state visible to the hook: the image-cache module state, the
`generationState` map, and a counter of backend generate calls issued. -/
structure CoordState where
  cache : CacheState
  gens : Str → Option GenRecord
  backendCalls : Nat

/-- Local state of one mounted hook instance (`useState` triple). -/
structure HookState where
  imageUrl : Option Str
  isGenerating : Bool
  error : Bool
deriving DecidableEq

/-- The initial hook-local state: `useState(null)`, `useState(false)`,
`useState(false)`. -/
def initHook : HookState := { imageUrl := none, isGenerating := false, error := false }

/-- `Set.prototype.add`: append if not already present (insertion order). -/
def addSub (subs : List Nat) (i : Nat) : List Nat :=
  if i ∈ subs then subs else subs ++ [i]

/-- Point update of the `generationState` map. -/
def setGen (m : Str → Option GenRecord) (k : Str) (v : Option GenRecord) :
    Str → Option GenRecord :=
  fun k2 => if k2 = k then v else m k2

/-- The synchronous body of the hook's mount effect (`useEffect` in
`useMonsterImage`): check the cache; else subscribe to an existing
generation record (delivering from cache when already completed); else,
when `shouldGenerate`, create a fresh record and issue one backend call;
else do nothing. -/
def mountEffect (name : Str) (shouldGenerate : Bool) (subId : Nat)
    (s : CoordState) (h : HookState) : CoordState × HookState :=
  let look := getMonsterImageUrlS name s.cache
  let s0 : CoordState := { s with cache := look.2 }
  match look.1 with
  | some u => (s0, { imageUrl := some u, isGenerating := false, error := false })
  | none =>
    match s0.gens name with
    | some r =>
      let h1 : HookState := { h with isGenerating := r.isGenerating, error := false }
      let r1 : GenRecord := { r with subscribers := addSub r.subscribers subId }
      let s1 : CoordState := { s0 with gens := setGen s0.gens name (some r1) }
      if r.completed then
        let look2 := getMonsterImageUrlS name s1.cache
        let s2 : CoordState := { s1 with cache := look2.2 }
        match look2.1 with
        | some cu => (s2, { imageUrl := some cu, isGenerating := false, error := false })
        | none => (s2, h1)
      else (s1, h1)
    | none =>
      if !shouldGenerate then (s0, h)
      else
        let h1 : HookState := { h with isGenerating := true, error := false }
        let r : GenRecord := { subscribers := [subId], isGenerating := true, completed := false }
        ({ s0 with gens := setGen s0.gens name (some r),
                   backendCalls := s0.backendCalls + 1 }, h1)

/-- Settlement of the shared generation promise (the `.then`/`.catch`
attached in the hook): `Except.ok u` models the promise resolving with
`u : Option Str` (the API can resolve with `null`), `Except.error ()`
models rejection.  On a truthy url the cache is written and the record
marked completed before `isGenerating` is cleared and every subscriber is
notified; otherwise the record is only marked not-generating and every
subscriber is notified with the settled value (`none` on rejection).
Returns the new state and, in order, the notification delivered to each
subscriber. -/
def settleGen (name : Str) (res : Except Unit (Option Str)) (s : CoordState) :
    CoordState × List (Nat × Option Str) :=
  match s.gens name with
  | none => (s, [])
  | some r =>
    match res with
    | Except.ok u =>
      let s1 : CoordState :=
        match u with
        | some url =>
          if url = [] then
            { s with gens := setGen s.gens name (some { r with isGenerating := false }) }
          else
            { s with
              cache := addImageToCache name url s.cache,
              gens := setGen s.gens name
                (some { r with completed := true, isGenerating := false }) }
        | none =>
          { s with gens := setGen s.gens name (some { r with isGenerating := false }) }
      (s1, r.subscribers.map (fun i => (i, u)))
    | Except.error _ =>
      ({ s with gens := setGen s.gens name (some { r with isGenerating := false }) },
       r.subscribers.map (fun i => (i, (none : Option Str))))

/-- The hook's effect cleanup (unsubscribe): remove the subscriber; never
delete a record that is generating or completed; delete a failed,
abandoned record once its subscriber set is empty. -/
def cleanupEffect (name : Str) (subId : Nat) (s : CoordState) : CoordState :=
  match s.gens name with
  | none => s
  | some r =>
    let subs1 := r.subscribers.erase subId
    if r.isGenerating then
      { s with gens := setGen s.gens name (some { r with subscribers := subs1 }) }
    else if r.completed then
      { s with gens := setGen s.gens name (some { r with subscribers := subs1 }) }
    else if subs1 = [] then
      { s with gens := setGen s.gens name none }
    else
      { s with gens := setGen s.gens name (some { r with subscribers := subs1 }) }

/-- Mount a sequence of hook instances (each with `shouldGenerate = true`
and a fresh initial hook state) for the same name, in order. -/
def mountMany (name : Str) (ids : List Nat) (s : CoordState) : CoordState :=
  ids.foldl (fun st i => (mountEffect name true i st initHook).1) s

/-- Outcome of one `fetch` to `/api/generate-monster-image`: a 2xx
response carrying `data.url`, a non-ok response with its status code, a
`TypeError` from `fetch` (connection failure), or any other thrown
error. -/
inductive BackendResp
  | ok (url : Str)
  | httpErr (status : Nat)
  | netFetchErr
  | otherErr
deriving DecidableEq

/-- `generateMonsterImageWithCache` from `src/lib/monster-images-api.ts`,
as a map from the backend outcome to the promise outcome delivered to the
hook: 2xx resolves with the url; a non-ok status that is 0 or ≥ 500
resolves with `null`; any other non-ok status rejects; a fetch
`TypeError` resolves with `null`; any other exception rejects. -/
def generateMonsterImageWithCache : BackendResp → Except Unit (Option Str)
  | BackendResp.ok url => Except.ok (some url)
  | BackendResp.httpErr status =>
    if status = 0 || 500 ≤ status then Except.ok none else Except.error ()
  | BackendResp.netFetchErr => Except.ok none
  | BackendResp.otherErr => Except.error ()

/-- A backend outcome that is not a 2xx success. -/
def isFailureResp : BackendResp → Bool
  | BackendResp.ok _ => false
  | _ => true

/-!  The accept/reject workflow of `CardPreviewDialog`. -/

/-- Local state of the dialog (`useState` quintuple). -/
structure DialogState where
  imageUrl : Option Str
  pendingImageUrl : Option Str
  originalImageUrl : Option Str
  showValidationButtons : Bool
  imageKey : Nat
deriving DecidableEq

/-- Outcome of the `fetch('/api/save-monster-image')` persist call. -/
inductive PersistResp
  | ok
  | httpFail
  | netErr
deriving DecidableEq

/-- `handleAccept` from `CardPreviewDialog`: the guard
`if (!pendingImageUrl) return` returns early on a falsy pending image,
that is when it is null or the empty string; otherwise one persist call
with `(name, pending)`; on a 2xx response write the pending url to the
cache, promote it to the confirmed image and clear the pending state; on
a non-ok response or a thrown error, change nothing.  Returns the new
dialog state, the new cache state, and the list of persist calls
issued. -/
def handleAccept (name : Str) (resp : PersistResp) (d : DialogState)
    (c : CacheState) : DialogState × CacheState × List (Str × Str) :=
  match d.pendingImageUrl with
  | none => (d, c, [])
  | some pending =>
    if pending = [] then (d, c, [])
    else
      match resp with
      | PersistResp.ok =>
        ({ d with imageUrl := some pending, originalImageUrl := some pending,
                  pendingImageUrl := none, showValidationButtons := false,
                  imageKey := d.imageKey + 1 },
         addImageToCache name pending c, [(name, pending)])
      | PersistResp.httpFail => (d, c, [(name, pending)])
      | PersistResp.netErr => (d, c, [(name, pending)])

/-- A concrete dialog state whose pending image is the non-null but falsy
empty string. -/
def emptyPendingDialog : DialogState :=
  { imageUrl := none, pendingImageUrl := some [], originalImageUrl := none,
    showValidationButtons := true, imageKey := 0 }

/-!  The print pagination of `PrintPreview`. -/

/-- A rendered card slot on a print page: a monster card or the dashed
"Empty slot" placeholder. -/
inductive Slot (α : Type u)
  | filled (a : α)
  | emptySlot
deriving DecidableEq

/-- The slicing loop `for (i = 0; i < monsters.length; i += 4)
pages.push(monsters.slice(i, i + 4))`. -/
def chunk4 {α : Type u} : List α → List (List α)
  | [] => []
  | [a] => [[a]]
  | [a, b] => [[a, b]]
  | [a, b, c] => [[a, b, c]]
  | a :: b :: c :: d :: rest => [a, b, c, d] :: chunk4 rest

/-- `PrintPreview` pagination: slice into pages of 4; an empty working
set still yields one (empty) page. -/
def paginate {α : Type u} (monsters : List α) : List (List α) :=
  match chunk4 monsters with
  | [] => [[]]
  | p :: ps => p :: ps

/-- The rendered slots of one page: the page's monsters followed by
`4 - pageMonsters.length` placeholder slots. -/
def renderPageSlots {α : Type u} (page : List α) : List (Slot α) :=
  page.map Slot.filled ++ List.replicate (4 - page.length) Slot.emptySlot

/-- The everywhere-empty record map. -/
def emptyRecordMap : RecordMap := fun _ => none

/-- A concrete cache-module state with an empty static import, an empty
runtime cache and the initialized flag set.  Used for concrete tests. -/
def testCache : CacheState :=
  { statMap := emptyRecordMap, runtime := emptyRecordMap, initialized := true }

/-- A concrete cache-module state holding exactly one runtime entry,
under the key `goblin`, with value `e`. -/
def goblinCache (e : Str) : CacheState :=
  { statMap := emptyRecordMap,
    runtime := setKey emptyRecordMap ("goblin".toList) e,
    initialized := true }

/-- A concrete coordinator state: empty cache, no generation records, no
backend calls issued. -/
def testCoord : CoordState :=
  { cache := testCache, gens := fun _ => none, backendCalls := 0 }

/-- Replace the generation-record map of a coordinator state. -/
def withGens (s : CoordState) (g : Str → Option GenRecord) : CoordState :=
  { s with gens := g }

/-- Replace the subscriber list of a generation record. -/
def withSubs (r : GenRecord) (subs : List Nat) : GenRecord :=
  { r with subscribers := subs }

/-- A concrete completed generation record with one subscriber. -/
def testRecord : GenRecord :=
  { subscribers := [0], isGenerating := false, completed := true }

/-- A concrete coordinator state holding `testRecord` under `goblin`. -/
def testCoordWithRecord : CoordState :=
  ⟨testCache, setGen (fun _ => none) ("goblin".toList) (some testRecord), 0⟩

end CardCrafter

namespace CardCrafter

/-! ## Pagination lemmas (PrintPreview) -/

theorem chunk4_length {α : Type u} (l : List α) :
    (chunk4 l).length = (l.length + 3) / 4 := by
  induction l using chunk4.induct with
  | case1 => simp [chunk4]
  | case2 a => simp [chunk4]
  | case3 a b => simp [chunk4]
  | case4 a b c => simp [chunk4]
  | case5 a b c d rest ih =>
    simp [chunk4, ih]
    omega

theorem chunk4_mem_length_le {α : Type u} (l : List α) :
    ∀ p ∈ chunk4 l, p.length ≤ 4 := by
  induction l using chunk4.induct with
  | case1 => simp [chunk4]
  | case2 a => simp [chunk4]
  | case3 a b => simp [chunk4]
  | case4 a b c => simp [chunk4]
  | case5 a b c d rest ih =>
    intro p hp
    simp only [chunk4, List.mem_cons] at hp
    rcases hp with h | h
    · simp [h]
    · exact ih p h

theorem chunk4_flatten {α : Type u} (l : List α) : (chunk4 l).flatten = l := by
  induction l using chunk4.induct <;> simp [chunk4, *]

theorem chunk4_dropLast_length {α : Type u} (l : List α) :
    ∀ p ∈ (chunk4 l).dropLast, p.length = 4 := by
  induction l using chunk4.induct with
  | case1 => simp [chunk4]
  | case2 a => simp [chunk4]
  | case3 a b => simp [chunk4]
  | case4 a b c => simp [chunk4]
  | case5 a b c d rest ih =>
    intro p hp
    rw [chunk4] at hp
    cases hcr : chunk4 rest with
    | nil => rw [hcr] at hp; simp at hp
    | cons q qs =>
      rw [hcr, List.dropLast_cons₂, List.mem_cons] at hp
      rcases hp with h | h
      · simp [h]
      · exact ih p (by rw [hcr]; exact h)

theorem renderPageSlots_length {α : Type u} (page : List α)
    (h : page.length ≤ 4) : (renderPageSlots page).length = 4 := by
  simp [renderPageSlots]
  omega

theorem paginate_length {α : Type u} (l : List α) :
    (paginate l).length = max 1 ((l.length + 3) / 4) := by
  have hc := chunk4_length l
  unfold paginate
  cases hcr : chunk4 l with
  | nil => rw [hcr] at hc; simp at hc ⊢; omega
  | cons q qs => rw [hcr] at hc; simp at hc ⊢; omega

theorem paginate_flatten {α : Type u} (l : List α) : (paginate l).flatten = l := by
  have hj := chunk4_flatten l
  unfold paginate
  cases hcr : chunk4 l with
  | nil => rw [hcr] at hj; simpa using hj.symm
  | cons q qs => rw [hcr] at hj; simpa using hj

theorem paginate_dropLast_length {α : Type u} (l : List α) :
    ∀ p ∈ (paginate l).dropLast, p.length = 4 := by
  have hd := chunk4_dropLast_length l
  unfold paginate
  cases hcr : chunk4 l with
  | nil => simp
  | cons q qs =>
    rw [hcr] at hd
    exact hd

theorem paginate_mem_length_le {α : Type u} (l : List α) :
    ∀ p ∈ paginate l, p.length ≤ 4 := by
  have hm := chunk4_mem_length_le l
  unfold paginate
  cases hcr : chunk4 l with
  | nil => intro p hp; simp at hp; simp [hp]
  | cons q qs =>
    rw [hcr] at hm
    exact hm

/-- C6: the print pagination partitions the working set into
`ceil(n/4)` pages (one placeholder page when the set is empty), in order,
with every page but the last holding exactly 4 items and every rendered
page (the last one padded with placeholders) holding exactly 4 slots; in
particular working sets of sizes 0, 1, 4, 5, 8 and 9 yield 1, 1, 1, 2, 2
and 3 pages. -/
theorem claim6_pagination_exactness :
    (∀ (α : Type) (l : List α),
      (paginate l).length = max 1 ((l.length + 3) / 4) ∧
      (paginate l).flatten = l ∧
      (∀ p ∈ (paginate l).dropLast, p.length = 4) ∧
      (∀ p ∈ paginate l, (renderPageSlots p).length = 4)) ∧
    (paginate (List.range 0)).length = 1 ∧
    (paginate (List.range 1)).length = 1 ∧
    (paginate (List.range 4)).length = 1 ∧
    (paginate (List.range 5)).length = 2 ∧
    (paginate (List.range 8)).length = 2 ∧
    (paginate (List.range 9)).length = 3 := by
  refine ⟨fun α l => ⟨paginate_length l, paginate_flatten l,
    paginate_dropLast_length l, fun p hp =>
      renderPageSlots_length p (paginate_mem_length_le l p hp)⟩,
    ?_, ?_, ?_, ?_, ?_, ?_⟩ <;> rfl

/-- Witness for C6: the per-page properties evaluated on the concrete
working set `[0, 1, 2, 3, 4]` (two pages: one full, one padded). -/
theorem claim6_pagination_exactness_witness :
    paginate (List.range 5) = [[0, 1, 2, 3], [4]] ∧
    (∀ p ∈ (paginate (List.range 5)).dropLast, p.length = 4) ∧
    (∀ p ∈ paginate (List.range 5), (renderPageSlots p).length = 4) := by
  refine ⟨by decide, ?_, ?_⟩
  · exact (claim6_pagination_exactness.1 Nat (List.range 5)).2.2.1
  · exact (claim6_pagination_exactness.1 Nat (List.range 5)).2.2.2

/-! ## Cache lookup: the empty name (C10) -/

/-- C10: for the empty string (the only falsy `string`), `getMonsterImageUrl`
returns `null` without touching or even initializing the cache, and
`hasMonsterImage` is therefore `false`. -/
theorem claim10_empty_name_absent :
    ∀ s : CacheState,
      getMonsterImageUrlS [] s = (none, s) ∧ hasMonsterImage [] s = false := by
  intro s
  constructor
  · simp [getMonsterImageUrlS]
  · simp [hasMonsterImage, getMonsterImageUrlS]

/-! ## Accept workflow (C5) -/

/-- Counterexample for C5: with the non-null but falsy empty-string
pending image, `handleAccept` issues zero persist calls (the source's
guard `if (!pendingImageUrl) return` fires on any falsy string), refuting
the claim that every non-null pending image produces exactly one persist
call. -/
theorem claim5_counterexample :
    emptyPendingDialog.pendingImageUrl ≠ none ∧
    (handleAccept ("goblin".toList) PersistResp.ok emptyPendingDialog
        testCache).2.2 = [] ∧
    handleAccept ("goblin".toList) PersistResp.ok emptyPendingDialog testCache
      = (emptyPendingDialog, testCache, []) := by
  refine ⟨by simp [emptyPendingDialog], rfl, rfl⟩

/-- C5 (amended): `handleAccept` is a no-op (zero persist calls, no state
change) when the pending image is null or the falsy empty string; with a
non-null, non-empty pending image it issues exactly one persist call with
`(name, pending)`; on a 2xx response it writes the pending url into the
cache under the normalized name, promotes it to the confirmed image and
clears the pending image; on a non-ok response or a thrown error the
dialog state and the cache are both left untouched. -/
theorem claim5_accept_atomicity :
    ∀ (name : Str) (resp : PersistResp) (d : DialogState) (c : CacheState),
      (d.pendingImageUrl = none ∨ d.pendingImageUrl = some [] →
        handleAccept name resp d c = (d, c, [])) ∧
      (∀ p, d.pendingImageUrl = some p → p ≠ [] →
        (handleAccept name resp d c).2.2 = [(name, p)]) ∧
      (∀ p, d.pendingImageUrl = some p → p ≠ [] → resp = PersistResp.ok →
        (handleAccept name resp d c).1.imageUrl = some p ∧
        (handleAccept name resp d c).1.pendingImageUrl = none ∧
        (handleAccept name resp d c).2.1.runtime (normalizeMonsterName name) = some p) ∧
      (resp ≠ PersistResp.ok →
        (handleAccept name resp d c).1 = d ∧ (handleAccept name resp d c).2.1 = c) := by
  intro name resp d c
  refine ⟨?_, ?_, ?_, ?_⟩
  · rintro (h | h) <;> simp [handleAccept, h]
  · intro p hp hne; cases resp <;> simp [handleAccept, hp, hne]
  · intro p hp hne hok; subst hok
    simp [handleAccept, hp, hne, addImageToCache, setKey]
  · intro hne
    cases hd : d.pendingImageUrl with
    | none => simp [handleAccept, hd]
    | some p =>
      by_cases hpe : p = []
      · simp [handleAccept, hd, hpe]
      · cases resp <;> simp_all [handleAccept]

/-- Witness for C5 (amended): concrete run with a non-empty pending image
and a successful persist call, and a concrete failing run that changes
nothing. -/
theorem claim5_accept_atomicity_witness :
    (handleAccept ("goblin".toList) PersistResp.ok
        { imageUrl := none, pendingImageUrl := some ("u".toList),
          originalImageUrl := none, showValidationButtons := true, imageKey := 0 }
        testCache).2.2 = [("goblin".toList, "u".toList)] ∧
    (handleAccept ("goblin".toList) PersistResp.httpFail
        { imageUrl := none, pendingImageUrl := some ("u".toList),
          originalImageUrl := none, showValidationButtons := true, imageKey := 0 }
        testCache).2.1 = testCache := by
  constructor
  · exact (claim5_accept_atomicity ("goblin".toList) PersistResp.ok
      { imageUrl := none, pendingImageUrl := some ("u".toList),
        originalImageUrl := none, showValidationButtons := true, imageKey := 0 }
      testCache).2.1 ("u".toList) rfl (by decide)
  · exact ((claim5_accept_atomicity ("goblin".toList) PersistResp.httpFail
      { imageUrl := none, pendingImageUrl := some ("u".toList),
        originalImageUrl := none, showValidationButtons := true, imageKey := 0 }
      testCache).2.2.2 (by simp)).2

/-! ## Unsubscribe rules (C2) -/

/-- C2: the effect cleanup removes the caller from the record's
subscriber set and never deletes a record that is generating or
completed; the record is deleted exactly when it is neither generating
nor completed and its subscriber set (after the removal) is empty. -/
theorem claim2_unsubscribe_never_deletes_active :
    ∀ (name : Str) (subId : Nat) (s : CoordState) (r : GenRecord),
      s.gens name = some r →
      ((∀ r2, (cleanupEffect name subId s).gens name = some r2 →
          r2.subscribers = r.subscribers.erase subId ∧
          r2.isGenerating = r.isGenerating ∧ r2.completed = r.completed) ∧
       (r.isGenerating = true ∨ r.completed = true →
          (cleanupEffect name subId s).gens name ≠ none) ∧
       ((cleanupEffect name subId s).gens name = none ↔
          r.isGenerating = false ∧ r.completed = false ∧
          r.subscribers.erase subId = [])) := by
  intro name subId s r hr
  unfold cleanupEffect
  rw [hr]
  by_cases hg : r.isGenerating
  · simp [hg, setGen]
  · by_cases hcp : r.completed
    · simp [hg, hcp, setGen]
    · by_cases he : r.subscribers.erase subId = []
      · simp [hg, hcp, he, setGen]
      · simp [hg, hcp, he, setGen]

/-! ## Variation and lookup lemmas -/

theorem dedupFirst_cons (n : Str) (t : List Str) :
    dedupFirst (n :: t) = n :: dedupFirst.go [n] t := by
  simp [dedupFirst, dedupFirst.go]

/-- The first lookup variation tried is always the exact normalized
name. -/
theorem findImageVariations_cons (name : Str) :
    ∃ t, findImageVariations name = normalizeMonsterName name :: t := by
  unfold findImageVariations
  dsimp only
  repeat' split
  all_goals simp only [List.cons_append, List.nil_append, List.append_assoc]
  all_goals exact ⟨_, dedupFirst_cons _ _⟩

theorem firstTruthy_head (m : RecordMap) (k : Str) (t : List Str) (url : Str)
    (hm : m k = some url) (hurl : url ≠ []) :
    firstTruthy m (k :: t) = some url := by
  simp [firstTruthy, truthyGet, hm, hurl]

/-! ## Reload semantics (C3) -/

/-- Counterexample for C3: reloading with an explicit snapshot discards a
session-written entry.  With an empty snapshot, a `goblin` entry written
by `addImageToCache` during the session no longer resolves, contradicting
the claim that session entries survive `updateImageCache` with a snapshot
argument. -/
theorem claim3_counterexample :
    (getMonsterImageUrlS ("goblin".toList)
        (updateImageCache (some emptyRecordMap)
          (addImageToCache ("goblin".toList) ("u".toList) testCache))).1
      ≠ some ("u".toList) := by
  decide

/-- C3 (amended): the no-argument reload merges the static snapshot
underneath the runtime cache, so every session-written entry survives
with its session value (session entries win over conflicting snapshot
entries); the reload with an explicit snapshot instead replaces the
runtime cache wholesale with the snapshot. -/
theorem claim3_reload_amended :
    (∀ (s : CacheState) (k v : Str),
        s.runtime k = some v → (updateImageCache none s).runtime k = some v) ∧
    (∀ (s : CacheState) (name url : Str),
        (updateImageCache none (addImageToCache name url s)).runtime
          (normalizeMonsterName name) = some url) ∧
    (∀ (s : CacheState) (m : RecordMap), (updateImageCache (some m) s).runtime = m) := by
  refine ⟨?_, ?_, ?_⟩
  · intro s k v h
    simp [updateImageCache, spreadMap, h]
  · intro s name url
    simp [updateImageCache, addImageToCache, spreadMap, setKey]
  · intro s m
    simp [updateImageCache]

/-- Witness for C3 (amended): a concrete session-written entry survives the
no-argument reload. -/
theorem claim3_reload_amended_witness :
    (updateImageCache none (goblinCache ("u".toList))).runtime ("goblin".toList)
      = some ("u".toList) := by
  exact claim3_reload_amended.1 (goblinCache ("u".toList)) ("goblin".toList)
    ("u".toList) (by simp [goblinCache, setKey])

/-! ## Put/lookup round trip (C9) -/

/-- Counterexample for C9: storing the empty-string url and looking the
name up returns `null`, not the stored url, because the lookup loop tests
JavaScript truthiness of the cache value and the empty string is falsy. -/
theorem claim9_counterexample :
    (getMonsterImageUrlS ("goblin".toList)
        (addImageToCache ("goblin".toList) [] testCache)).1 ≠ some [] := by
  decide

/-- C9 (amended): for every non-empty name and every non-empty url,
`addImageToCache` followed by `getMonsterImageUrl` returns exactly that
url, from any prior cache state: the value is stored under the normalized
name and the exact normalized name is the first, highest-priority
variation tried. -/
theorem claim9_put_lookup_roundtrip :
    ∀ (s : CacheState) (name url : Str), name ≠ [] → url ≠ [] →
      (getMonsterImageUrlS name (addImageToCache name url s)).1 = some url := by
  intro s name url hname hurl
  obtain ⟨t, ht⟩ := findImageVariations_cons name
  have hrt : (addImageToCache name url s).runtime
      (normalizeMonsterName name) = some url := by
    simp [addImageToCache, setKey]
  unfold getMonsterImageUrlS
  rw [if_neg hname]
  dsimp only
  by_cases hinit : (addImageToCache name url s).initialized
  · rw [if_pos hinit, ht]
    exact firstTruthy_head _ _ _ _ hrt hurl
  · rw [if_neg hinit, ht]
    refine firstTruthy_head _ _ _ _ ?_ hurl
    simp only [updateImageCache, spreadMap, hrt]

/-- Witness for C9 (amended): concrete round trip through an empty cache. -/
theorem claim9_put_lookup_roundtrip_witness :
    (getMonsterImageUrlS ("goblin".toList)
        (addImageToCache ("goblin".toList) ("u".toList) testCache)).1
      = some ("u".toList) := by
  exact claim9_put_lookup_roundtrip testCache ("goblin".toList) ("u".toList)
    (by decide) (by decide)

/-! ## Observer non-triggering (C4) -/

/-- C4: mounting the hook with `shouldGenerate = false` when the cache
misses and no generation record exists issues no backend call, creates no
generation record, and leaves the hook-local state at its initial value
(`imageUrl` null, `isGenerating` false, `error` false). -/
theorem claim4_observer_non_triggering :
    ∀ (name : Str) (i : Nat) (s : CoordState),
      (getMonsterImageUrlS name s.cache).1 = none → s.gens name = none →
      (mountEffect name false i s initHook).1.gens = s.gens ∧
      (mountEffect name false i s initHook).1.backendCalls = s.backendCalls ∧
      (mountEffect name false i s initHook).2 = initHook := by
  intro name i s hmiss hrec
  unfold mountEffect
  dsimp only
  rw [hmiss]
  dsimp only
  rw [hrec]
  simp

/-- Witness for C4: concrete observer mount on the empty coordinator
state. -/
theorem claim4_observer_non_triggering_witness :
    (mountEffect ("goblin".toList) false 0 testCoord initHook).1.backendCalls = 0 := by
  exact (claim4_observer_non_triggering ("goblin".toList) 0 testCoord
    (by decide) rfl).2.1

/-! ## Coordinator dedup (C1) -/

theorem setGen_same (m : Str → Option GenRecord) (k : Str) (v : Option GenRecord) :
    setGen m k v k = v := by
  simp [setGen]

theorem setGen_self (m : Str → Option GenRecord) (k : Str) (v : Option GenRecord)
    (h : m k = v) : setGen m k v = m := by
  funext k2
  by_cases h2 : k2 = k
  · subst h2; simp [setGen, h]
  · simp [setGen, h2]

theorem setGen_setGen (m : Str → Option GenRecord) (k : Str)
    (v w : Option GenRecord) : setGen (setGen m k v) k w = setGen m k w := by
  funext k2
  by_cases h2 : k2 = k <;> simp [setGen, h2]

/-- The stateful cache lookup stabilizes after one call: a second lookup
on the state returned by a first lookup returns the same answer and the
same state. -/
theorem getMonsterImageUrlS_stable (name : Str) (c : CacheState) :
    getMonsterImageUrlS name (getMonsterImageUrlS name c).2
      = getMonsterImageUrlS name c := by
  by_cases hn : name = []
  · simp [getMonsterImageUrlS, hn]
  · by_cases hi : c.initialized
    · simp [getMonsterImageUrlS, hn, hi]
    · simp [getMonsterImageUrlS, hn, hi, updateImageCache]

/-- Mounting against an existing, not-yet-completed generation record is a
pure subscription: append the subscriber, touch nothing else, issue no
backend call. -/
theorem mountEffect_subscribe (name : Str) (g : Bool) (i : Nat) (s : CoordState)
    (h : HookState) (r : GenRecord)
    (hstab : getMonsterImageUrlS name s.cache = (none, s.cache))
    (hr : s.gens name = some r) (hc : r.completed = false) :
    mountEffect name g i s h
      = (withGens s (setGen s.gens name (some (withSubs r (addSub r.subscribers i)))),
         { h with isGenerating := r.isGenerating, error := false }) := by
  simp [mountEffect, hstab, hr, hc, withGens, withSubs]

/-- Mounting with `shouldGenerate = true`, a cache miss and no existing
record creates exactly one record with the caller as its only subscriber
and issues exactly one backend call. -/
theorem mountEffect_fresh (name : Str) (i : Nat) (s : CoordState) (h : HookState)
    (hmiss : (getMonsterImageUrlS name s.cache).1 = none)
    (hr : s.gens name = none) :
    mountEffect name true i s h
      = (CoordState.mk (getMonsterImageUrlS name s.cache).2
           (setGen s.gens name (some (GenRecord.mk [i] true false)))
           (s.backendCalls + 1),
         { h with isGenerating := true, error := false }) := by
  simp [mountEffect, hmiss, hr]

theorem foldl_addSub_append :
    ∀ (ids : List Nat) (acc : List Nat),
      (∀ x ∈ ids, x ∉ acc) → ids.Nodup →
      ids.foldl addSub acc = acc ++ ids := by
  intro ids
  induction ids with
  | nil => intro acc _ _; simp
  | cons i rest ih =>
    intro acc hnotin hnd
    have hstep : addSub acc i = acc ++ [i] := by
      simp [addSub, hnotin i (by simp)]
    have hrest : ∀ x ∈ rest, x ∉ acc ++ [i] := by
      intro x hx
      simp only [List.mem_append, List.mem_singleton]
      rintro (ha | hi)
      · exact hnotin x (by simp [hx]) ha
      · subst hi
        exact (List.nodup_cons.mp hnd).1 hx
    calc (i :: rest).foldl addSub acc = rest.foldl addSub (addSub acc i) := rfl
      _ = rest.foldl addSub (acc ++ [i]) := by rw [hstep]
      _ = (acc ++ [i]) ++ rest := ih (acc ++ [i]) hrest (List.nodup_cons.mp hnd).2
      _ = acc ++ (i :: rest) := by simp

/-- Folding further mounts over a state already holding a live record only
accumulates subscribers. -/
theorem mountMany_subscribed (name : Str) (ids : List Nat) :
    ∀ (s : CoordState) (r : GenRecord),
      getMonsterImageUrlS name s.cache = (none, s.cache) →
      s.gens name = some r → r.completed = false →
      mountMany name ids s
        = withGens s (setGen s.gens name (some (withSubs r (ids.foldl addSub r.subscribers)))) := by
  induction ids with
  | nil =>
    intro s r hstab hr hc
    have h1 : setGen s.gens name (some (withSubs r (List.foldl addSub r.subscribers [])))
        = s.gens := by
      apply setGen_self
      rw [hr]
      rfl
    show s = _
    rw [h1]
    rfl
  | cons i rest ih =>
    intro s r hstab hr hc
    have hm := mountEffect_subscribe name true i s initHook r hstab hr hc
    have hstep : mountMany name (i :: rest) s
        = mountMany name rest (mountEffect name true i s initHook).1 := rfl
    rw [hstep, hm]
    have hnext := ih
      (withGens s (setGen s.gens name (some (withSubs r (addSub r.subscribers i)))))
      (withSubs r (addSub r.subscribers i))
      (by simpa [withGens] using hstab)
      (by simp [withGens, setGen_same])
      (by simpa [withSubs] using hc)
    rw [hnext]
    simp only [withGens, setGen_setGen, withSubs]
    rfl

/-- C1: mounting N distinct card instances for the same uncached name,
all with `shouldGenerate = true` and before the generation settles,
issues exactly one backend generate call and maintains exactly one
generation record, holding all N subscribers in mount order; when the
shared promise then resolves with a url, every one of the N subscribers
is notified with that identical url, which has also been written to the
cache. -/
theorem claim1_at_most_one_generation :
    ∀ (name : Str) (i : Nat) (rest : List Nat) (s : CoordState) (url : Str),
      (i :: rest).Nodup →
      (getMonsterImageUrlS name s.cache).1 = none →
      s.gens name = none → url ≠ [] →
      ((mountMany name (i :: rest) s).backendCalls = s.backendCalls + 1) ∧
      ((mountMany name (i :: rest) s).gens name
        = some { subscribers := i :: rest, isGenerating := true, completed := false }) ∧
      ((settleGen name (Except.ok (some url)) (mountMany name (i :: rest) s)).2
        = (i :: rest).map (fun j => (j, some url))) ∧
      ((settleGen name (Except.ok (some url))
          (mountMany name (i :: rest) s)).1.cache.runtime
        (normalizeMonsterName name) = some url) := by
  intro name i rest s url hnd hmiss hrec hurl
  have hfresh := mountEffect_fresh name i s initHook hmiss hrec
  have hstep : mountMany name (i :: rest) s
      = mountMany name rest (mountEffect name true i s initHook).1 := rfl
  have hstab1 : getMonsterImageUrlS name (getMonsterImageUrlS name s.cache).2
      = (none, (getMonsterImageUrlS name s.cache).2) := by
    rw [getMonsterImageUrlS_stable]
    rw [← hmiss]
  have hrest := mountMany_subscribed name rest
    (CoordState.mk (getMonsterImageUrlS name s.cache).2
      (setGen s.gens name (some (GenRecord.mk [i] true false)))
      (s.backendCalls + 1))
    (GenRecord.mk [i] true false)
    hstab1 (setGen_same _ _ _) rfl
  have hfold : rest.foldl addSub [i] = i :: rest := by
    have := foldl_addSub_append rest [i]
      (by
        intro x hx
        simp only [List.mem_singleton]
        intro hxi
        subst hxi
        exact (List.nodup_cons.mp hnd).1 hx)
      (List.nodup_cons.mp hnd).2
    simpa using this
  have hall : mountMany name (i :: rest) s
      = CoordState.mk (getMonsterImageUrlS name s.cache).2
          (setGen s.gens name (some (GenRecord.mk (i :: rest) true false)))
          (s.backendCalls + 1) := by
    rw [hstep, hfresh]
    rw [hrest]
    simp only [withGens, withSubs, setGen_setGen, hfold]
  rw [hall]
  refine ⟨rfl, setGen_same _ _ _, ?_, ?_⟩
  · simp [settleGen, setGen_same, hurl]
  · simp [settleGen, setGen_same, hurl, addImageToCache, setKey]

/-- Witness for C1: three concurrent mounts of `goblin` on the empty
coordinator issue exactly one backend call. -/
theorem claim1_at_most_one_generation_witness :
    (mountMany ("goblin".toList) [0, 1, 2] testCoord).backendCalls = 0 + 1 := by
  exact (claim1_at_most_one_generation ("goblin".toList) 0 [1, 2] testCoord
    ("u".toList) (by decide) (by decide) rfl (by decide)).1

/-! ## Failure settlement (C8) -/

theorem settleGen_ok_none_eq_error (name : Str) (s : CoordState) :
    settleGen name (Except.ok none) s = settleGen name (Except.error ()) s := by
  unfold settleGen
  cases hg : s.gens name <;> rfl

theorem settleGen_failure_eq (name : Str) (s : CoordState) (r : BackendResp)
    (hf : isFailureResp r = true) :
    settleGen name (generateMonsterImageWithCache r) s
      = settleGen name (Except.ok none) s := by
  cases r with
  | ok url => simp [isFailureResp] at hf
  | httpErr status =>
    simp only [generateMonsterImageWithCache]
    by_cases h5 : (decide (status = 0) || decide (500 ≤ status)) = true
    · rw [if_pos h5]
    · rw [if_neg h5]
      exact (settleGen_ok_none_eq_error name s).symm
  | netFetchErr => rfl
  | otherErr => exact (settleGen_ok_none_eq_error name s).symm

/-- C8: every non-2xx backend response and every thrown error produce the
same settlement: the two states are literally equal for any two failure
outcomes, the cache is unchanged, the record keeps its `completed` flag
(which is false for a first generation) and loses `isGenerating`, and
every subscriber is notified with `null`. -/
theorem claim8_failures_indistinguishable :
    ∀ (name : Str) (s : CoordState) (r1 r2 : BackendResp),
      isFailureResp r1 = true → isFailureResp r2 = true →
      (settleGen name (generateMonsterImageWithCache r1) s
        = settleGen name (generateMonsterImageWithCache r2) s) ∧
      (settleGen name (generateMonsterImageWithCache r1) s).1.cache = s.cache ∧
      (∀ rec, s.gens name = some rec →
        (settleGen name (generateMonsterImageWithCache r1) s).1.gens name
            = some { rec with isGenerating := false } ∧
        (settleGen name (generateMonsterImageWithCache r1) s).2
            = rec.subscribers.map (fun i => (i, (none : Option Str)))) := by
  intro name s r1 r2 h1 h2
  rw [settleGen_failure_eq name s r1 h1, settleGen_failure_eq name s r2 h2]
  refine ⟨rfl, ?_, ?_⟩
  · unfold settleGen
    cases hg : s.gens name <;> rfl
  · intro rec hrec
    unfold settleGen
    rw [hrec]
    simp [setGen]

/-- Witness for C8: a 404 and a thrown error settle to identical states on
a concrete record. -/
theorem claim8_failures_indistinguishable_witness :
    settleGen ("goblin".toList) (generateMonsterImageWithCache (BackendResp.httpErr 404))
        testCoordWithRecord
      = settleGen ("goblin".toList) (generateMonsterImageWithCache BackendResp.otherErr)
        testCoordWithRecord := by
  exact (claim8_failures_indistinguishable ("goblin".toList) testCoordWithRecord
    (BackendResp.httpErr 404) BackendResp.otherErr rfl rfl).1

/-! ## Normalization idempotence (C7) -/

theorem dropWhile_head_false (p : Char → Bool) (l : List Char) :
    ∀ x t, l.dropWhile p = x :: t → p x = false := by
  intro x t h
  have hh := List.head?_dropWhile_not p l
  rw [h] at hh
  simpa using hh

theorem dropWhile_eq_self_of_head (p : Char → Bool) (l : List Char)
    (h : ∀ x t, l = x :: t → p x = false) : l.dropWhile p = l := by
  cases l with
  | nil => rfl
  | cons x t => simp [List.dropWhile_cons, h x t rfl]

theorem dropWhile_idem (p : Char → Bool) (l : List Char) :
    (l.dropWhile p).dropWhile p = l.dropWhile p := by
  apply dropWhile_eq_self_of_head
  intro x t h
  exact dropWhile_head_false p l x t h

theorem trimWs_subset (l : List Char) : ∀ c ∈ trimWs l, c ∈ l := by
  intro c hc
  unfold trimWs at hc
  rw [List.mem_reverse] at hc
  have h1 : c ∈ (l.dropWhile jsWs).reverse := (List.dropWhile_sublist jsWs).subset hc
  rw [List.mem_reverse] at h1
  exact (List.dropWhile_sublist jsWs).subset h1

theorem trimWs_prefix_dropWhile (l : List Char) :
    trimWs l <+: l.dropWhile jsWs := by
  unfold trimWs
  have h := List.reverse_prefix.mpr
    (List.dropWhile_suffix (l := (l.dropWhile jsWs).reverse) jsWs)
  simpa using h

theorem trimWs_head_false (l : List Char) :
    ∀ x t, trimWs l = x :: t → jsWs x = false := by
  intro x t h
  obtain ⟨u, hu⟩ := trimWs_prefix_dropWhile l
  rw [h] at hu
  exact dropWhile_head_false jsWs l x (t ++ u) (by rw [← hu]; rfl)

theorem trimWs_idem (l : List Char) : trimWs (trimWs l) = trimWs l := by
  have hd : (trimWs l).dropWhile jsWs = trimWs l :=
    dropWhile_eq_self_of_head jsWs (trimWs l) (trimWs_head_false l)
  show (((trimWs l).dropWhile jsWs).reverse.dropWhile jsWs).reverse = trimWs l
  rw [hd]
  have hrev : (trimWs l).reverse
      = ((l.dropWhile jsWs).reverse).dropWhile jsWs := by
    unfold trimWs
    rw [List.reverse_reverse]
  rw [hrev, dropWhile_idem, ← hrev, List.reverse_reverse]

theorem collapseWs_cons_not_ws (b : Char) (t : List Char) (hb : jsWs b = false) :
    collapseWs (b :: t) = b :: collapseWs t := by
  cases t with
  | nil => simp [collapseWs, hb]
  | cons c t2 => simp [collapseWs, hb]

theorem collapseWs_mem_ws :
    ∀ l : List Char, ∀ c ∈ collapseWs l, jsWs c = true → c = ' ' := by
  intro l
  induction l with
  | nil => simp [collapseWs]
  | cons a t ih =>
    cases t with
    | nil =>
      intro c hc hw
      by_cases h : jsWs a
      · simp [collapseWs, h] at hc
        exact hc
      · simp [collapseWs, h] at hc
        subst hc
        simp [hw] at h
    | cons b t2 =>
      intro c hc hw
      by_cases ha : jsWs a
      · by_cases hb : jsWs b
        · simp only [collapseWs, if_pos ha, if_pos hb] at hc
          exact ih c hc hw
        · simp only [collapseWs, if_pos ha, if_neg hb, List.mem_cons] at hc
          rcases hc with h1 | h1
          · exact h1
          · exact ih c h1 hw
      · simp only [collapseWs, if_neg ha, List.mem_cons] at hc
        rcases hc with h1 | h1
        · subst h1; simp [hw] at ha
        · exact ih c h1 hw

theorem collapseWs_mem_not_ws :
    ∀ l : List Char, ∀ c ∈ collapseWs l, jsWs c = false → c ∈ l := by
  intro l
  induction l with
  | nil => simp [collapseWs]
  | cons a t ih =>
    cases t with
    | nil =>
      intro c hc hw
      by_cases h : jsWs a
      · simp [collapseWs, h] at hc
        subst hc
        exact absurd hw (by decide)
      · simp [collapseWs, h] at hc
        simp [hc]
    | cons b t2 =>
      intro c hc hw
      by_cases ha : jsWs a
      · by_cases hb : jsWs b
        · simp only [collapseWs, if_pos ha, if_pos hb] at hc
          exact List.mem_cons_of_mem a (ih c hc hw)
        · simp only [collapseWs, if_pos ha, if_neg hb, List.mem_cons] at hc
          rcases hc with h1 | h1
          · subst h1
            exact absurd hw (by decide)
          · exact List.mem_cons_of_mem a (ih c h1 hw)
      · simp only [collapseWs, if_neg ha, List.mem_cons] at hc
        rcases hc with h1 | h1
        · simp [h1]
        · exact List.mem_cons_of_mem a (ih c h1 hw)

theorem collapseWs_chain :
    ∀ l : List Char,
      List.Chain' (fun x y => jsWs x = false ∨ jsWs y = false) (collapseWs l) := by
  intro l
  induction l with
  | nil => simp [collapseWs]
  | cons a t ih =>
    cases t with
    | nil =>
      by_cases h : jsWs a <;> simp [collapseWs, h]
    | cons b t2 =>
      by_cases ha : jsWs a
      · by_cases hb : jsWs b
        · simpa only [collapseWs, if_pos ha, if_pos hb] using ih
        · simp only [collapseWs, if_pos ha, if_neg hb]
          rw [List.chain'_cons']
          refine ⟨?_, ih⟩
          intro y hy
          rw [collapseWs_cons_not_ws b t2 (by simpa using hb)] at hy
          simp at hy
          subst hy
          exact Or.inr (by simpa using hb)
      · simp only [collapseWs, if_neg ha]
        rw [List.chain'_cons']
        refine ⟨?_, ih⟩
        intro y _
        exact Or.inl (by simpa using ha)

theorem collapseWs_id :
    ∀ l : List Char,
      (∀ c ∈ l, jsWs c = true → c = ' ') →
      List.Chain' (fun x y => jsWs x = false ∨ jsWs y = false) l →
      collapseWs l = l := by
  intro l
  induction l with
  | nil => intro _ _; rfl
  | cons a t ih =>
    cases t with
    | nil =>
      intro hws _
      by_cases h : jsWs a
      · have ha : a = ' ' := hws a (by simp) h
        subst ha
        simp [collapseWs]
      · simp [collapseWs, h]
    | cons b t2 =>
      intro hws hch
      have hR := (List.chain'_cons.mp hch).1
      have hch2 := (List.chain'_cons.mp hch).2
      have hwst : ∀ c ∈ b :: t2, jsWs c = true → c = ' ' :=
        fun c hc => hws c (List.mem_cons_of_mem a hc)
      by_cases ha : jsWs a
      · have ha' : a = ' ' := hws a (by simp) ha
        have hb : jsWs b = false := by
          rcases hR with h1 | h1
          · rw [ha] at h1; simp at h1
          · exact h1
        simp only [collapseWs, if_pos ha, if_neg (by simp [hb] : ¬ jsWs b = true)]
        rw [ih hwst hch2, ha']
      · simp only [collapseWs, if_neg ha]
        rw [ih hwst hch2]

theorem toLower_id_of_keep (c : Char) (h : keepChar c = true) (hw : jsWs c = false) :
    Char.toLower c = c := by
  have hn : ¬(c.toNat ≥ 65 ∧ c.toNat ≤ 90) := by
    simp only [keepChar, hw, Bool.or_false, Bool.or_eq_true, Bool.and_eq_true,
      decide_eq_true_eq] at h
    omega
  unfold Char.toLower
  rw [if_neg hn]

theorem map_toLower_id (l : List Char) (h : ∀ c ∈ l, Char.toLower c = c) :
    l.map Char.toLower = l := by
  induction l with
  | nil => rfl
  | cons a t ih =>
    simp only [List.map_cons, h a (by simp), List.cons.injEq, true_and]
    exact ih fun c hc => h c (List.mem_cons_of_mem a hc)

/-- Every character of a normalized name is kept by the filter class, is
fixed by `toLower`, and is a plain space if it is whitespace at all. -/
theorem normalize_mem_props (x : Str) :
    ∀ c ∈ normalizeMonsterName x,
      keepChar c = true ∧ Char.toLower c = c ∧ (jsWs c = true → c = ' ') := by
  intro c hc
  have hz : c ∈ collapseWs ((x.map Char.toLower).filter keepChar) := by
    unfold normalizeMonsterName at hc
    exact trimWs_subset _ c hc
  have hws : jsWs c = true → c = ' ' := collapseWs_mem_ws _ c hz
  by_cases hw : jsWs c
  · have hsp : c = ' ' := hws hw
    subst hsp
    exact ⟨by decide, by decide, fun _ => rfl⟩
  · have hm : c ∈ (x.map Char.toLower).filter keepChar :=
      collapseWs_mem_not_ws _ c hz (by simpa using hw)
    have hk : keepChar c = true := (List.mem_filter.mp hm).2
    exact ⟨hk, toLower_id_of_keep c hk (by simpa using hw), hws⟩

theorem normalize_chain (x : Str) :
    List.Chain' (fun a b => jsWs a = false ∨ jsWs b = false)
      (normalizeMonsterName x) := by
  have hz := collapseWs_chain ((x.map Char.toLower).filter keepChar)
  have hdw := hz.suffix (List.dropWhile_suffix jsWs)
  unfold normalizeMonsterName
  exact hdw.prefix (trimWs_prefix_dropWhile _)

theorem normalizeMonsterName_idem (x : Str) :
    normalizeMonsterName (normalizeMonsterName x) = normalizeMonsterName x := by
  have hprops := normalize_mem_props x
  have h1 : (normalizeMonsterName x).map Char.toLower = normalizeMonsterName x :=
    map_toLower_id _ fun c hc => (hprops c hc).2.1
  have h2 : (normalizeMonsterName x).filter keepChar = normalizeMonsterName x :=
    List.filter_eq_self.mpr fun c hc => (hprops c hc).1
  have h3 : collapseWs (normalizeMonsterName x) = normalizeMonsterName x :=
    collapseWs_id _ (fun c hc => (hprops c hc).2.2) (normalize_chain x)
  have h4 : trimWs (normalizeMonsterName x) = normalizeMonsterName x := by
    show trimWs (normalizeMonsterName x) = normalizeMonsterName x
    unfold normalizeMonsterName
    exact trimWs_idem _
  show trimWs (collapseWs
    (((normalizeMonsterName x).map Char.toLower).filter keepChar))
      = normalizeMonsterName x
  rw [h1, h2, h3, h4]

/-- C7: normalization is idempotent on every string, and with a cache
holding exactly one entry under the key `goblin`, lookups for `Goblins`,
`goblin` and `The Goblin` all resolve to that same entry. -/
theorem claim7_normalization_idempotent_and_variants :
    (∀ x : Str, normalizeMonsterName (normalizeMonsterName x) = normalizeMonsterName x) ∧
    (∀ e : Str, e ≠ [] →
      (getMonsterImageUrlS ("Goblins".toList) (goblinCache e)).1 = some e ∧
      (getMonsterImageUrlS ("goblin".toList) (goblinCache e)).1 = some e ∧
      (getMonsterImageUrlS ("The Goblin".toList) (goblinCache e)).1 = some e) := by
  constructor
  · exact normalizeMonsterName_idem
  · intro e he
    have hv1 : findImageVariations ("Goblins".toList)
        = ["goblins".toList, "goblin".toList] := by decide
    have hv2 : findImageVariations ("goblin".toList)
        = ["goblin".toList, "goblins".toList] := by decide
    have hv3 : findImageVariations ("The Goblin".toList)
        = ["the goblin".toList, "goblin".toList, "the goblins".toList] := by decide
    have hne1 : ("goblins".toList : Str) ≠ "goblin".toList := by decide
    have hne2 : ("the goblin".toList : Str) ≠ "goblin".toList := by decide
    have hg1 : ¬(("Goblins".toList : Str) = []) := by decide
    have hg2 : ¬(("goblin".toList : Str) = []) := by decide
    have hg3 : ¬(("The Goblin".toList : Str) = []) := by decide
    have hL : ∀ name : Str, ¬(name = []) →
        (getMonsterImageUrlS name (goblinCache e)).1
          = firstTruthy (goblinCache e).runtime (findImageVariations name) := by
      intro name hn
      simp [getMonsterImageUrlS, hn, goblinCache]
    refine ⟨?_, ?_, ?_⟩
    · rw [hL _ hg1, hv1]
      simp only [firstTruthy, truthyGet, goblinCache, setKey, emptyRecordMap]
      rw [if_neg hne1]
      simp [he]
    · rw [hL _ hg2, hv2]
      simp only [firstTruthy, truthyGet, goblinCache, setKey, emptyRecordMap]
      simp [he]
    · rw [hL _ hg3, hv3]
      simp only [firstTruthy, truthyGet, goblinCache, setKey, emptyRecordMap]
      rw [if_neg hne2]
      simp [he]

/-- Witness for C7: the variant lookups at the concrete entry value `u`. -/
theorem claim7_normalization_idempotent_and_variants_witness :
    (getMonsterImageUrlS ("Goblins".toList) (goblinCache ("u".toList))).1
      = some ("u".toList) := by
  exact (claim7_normalization_idempotent_and_variants.2 ("u".toList) (by decide)).1

/-- Witness for C2: cleanup of a completed single-subscriber record keeps
the record with an empty subscriber set. -/
theorem claim2_unsubscribe_never_deletes_active_witness :
    (cleanupEffect ("goblin".toList) 0 testCoordWithRecord).gens
      ("goblin".toList) ≠ none := by
  exact (claim2_unsubscribe_never_deletes_active ("goblin".toList) 0
    testCoordWithRecord testRecord (by simp [testCoordWithRecord, setGen])).2.1
    (Or.inr rfl)

end CardCrafter
